import Mathlib

/-!
Verification of the generated test lexer in
`src/flexer-testing/generation/src/generated/engine.rs`.

The file embeds, as executable Lean definitions, the generated runtime driver
(`TestLexer::run`, `run_current_state`, `step`, the per-sub-state interval
dispatch functions `state_G_to_J` and the rule actions) together with the small
amount of runtime infrastructure the generated code uses (the streaming reader,
the bookmark manager and the lexer state stack).  The reader and bookmark
manager are not part of the excerpted sources, so they are modelled from the
specification's capability contract; everything else is translated directly
from `engine.rs`.
-/

namespace Flexer

-- ===============
-- === Symbols ===
-- ===============

/-- A symbol produced by the reader for one `character()` query: either a
successfully decoded character, or one of the reader's error markers.
The end-of-input condition is represented by `Option.none` at the
`Reader.character` level, mirroring `Err(Error::EOF)`.
Modelled from the spec: the reader capability distinguishes end-of-input,
decoding errors (`EndOfGroup`) and other I/O errors. -/
inductive Sym where
  | ch (c : Char)
  | endOfGroup
  | otherErr
deriving DecidableEq

/-- The largest `u64` value; the generated dispatch code matches the current
symbol as a `u64`, with this value reserved for the EOF pseudo-symbol. -/
def u64MAX : Nat := 18446744073709551615

/-- The numeric encoding of a symbol used by the generated `match` dispatch,
`u64::from(reader.character())`.  A decoded character maps to its code point.
Modelled from the spec: the error markers are out-of-range values inside the
wildcard range (strictly below the EOF value), since the spec states the
wildcard pattern "matches any single symbol including out-of-range /
invalid-decoding markers" while `Pattern::eof()` matches only the designated
EOF pseudo-symbol. -/
def symToU64 : Sym → Nat
  | .ch c => c.toNat
  | .endOfGroup => u64MAX - 1
  | .otherErr => u64MAX - 2

/-- Encoding of the reader's current `character()` (with `none` = EOF) as the
`u64` matched by the dispatch tables. -/
def charU64 : Option Sym → Nat
  | some s => symToU64 s
  | none => u64MAX

-- ==============
-- === Reader ===
-- ==============

/-- The streaming reader.  Modelled from the spec's reader capability
contract: it supplies the current decoded symbol, advances by one symbol,
accumulates a match buffer (`append_result` / `pop_result`), and reports
exhaustion.  `pos` counts how many `advance_char` calls have happened, so the
current character is `input[pos - 1]` once at least one advance occurred. -/
structure Reader where
  input : List Sym
  pos : Nat
  result : List Char
deriving DecidableEq

/-- `reader.character()`: the current symbol; `none` models `Err(Error::EOF)`. -/
def Reader.character (r : Reader) : Option Sym :=
  r.input.get? (r.pos - 1)

/-- `reader.finished(bookmarks)`: the input is exhausted.
Modelled from the spec: the `isExhausted` capability. -/
def Reader.isFinished (r : Reader) : Bool :=
  decide (r.input.length < r.pos)

/-- `reader.advance_char(&mut bookmarks)`: move to the next symbol. -/
def Reader.advanceChar (r : Reader) : Reader :=
  { r with pos := r.pos + 1 }

/-- `reader.append_result(char)`: push the decoded character onto the match
buffer. -/
def Reader.appendResult (r : Reader) (c : Char) : Reader :=
  { r with result := r.result ++ [c] }

/-- `reader.pop_result()`: take the accumulated match buffer, leaving it
empty. -/
def Reader.popResult (r : Reader) : List Char × Reader :=
  (r.result, { r with result := [] })

-- ==============
-- === Tokens ===
-- ==============

/-- The `Token` AST of the test lexer (`engine.rs`): a word of all `a` or all
`b`, or an unrecognised stretch of input. -/
inductive Token where
  | word (text : List Char)
  | unrecognized (text : List Char)
deriving DecidableEq

/-- Rust's Unicode `White_Space` test used by `str::trim` in
`on_spaced_word`. -/
def isRustWhitespace (c : Char) : Bool :=
  c.toNat ∈ [9, 10, 11, 12, 13, 32, 133, 160, 5760,
    8192, 8193, 8194, 8195, 8196, 8197, 8198, 8199, 8200, 8201, 8202,
    8232, 8233, 8239, 8287, 12288]

/-- `str::trim`: remove leading and trailing whitespace. -/
def trimChars (l : List Char) : List Char :=
  ((l.dropWhile isRustWhitespace).reverse.dropWhile isRustWhitespace).reverse

-- ====================
-- === Stage status ===
-- ====================

/-- `StageStatus`: the per-character-scan status of the runtime driver. -/
inductive StageStatus where
  | initial
  | continueWith (s : Nat)
  | exitSuccess
  | exitFinished
  | exitFail
deriving DecidableEq

/-- `StageStatus::continue_as()`: the sub-state to continue in, if any
(`Initial` continues in sub-state 0). -/
def StageStatus.continueAs : StageStatus → Option Nat
  | .initial => some 0
  | .continueWith s => some s
  | _ => none

/-- `StageStatus::should_continue()`. -/
def StageStatus.shouldContinue (s : StageStatus) : Bool :=
  s.continueAs.isSome

-- ====================
-- === Lexer state ====
-- ====================

/-- The mutable lexer state threaded by the driver: the group stack (top is
the head; the root group is always present), the captured `current_match`,
the accumulated `output` token stream, the driver `status`, and the position
recorded in the distinguished "matched" bookmark.
The group stack and bookmark manager live outside the excerpted sources and
are modelled from the spec: a non-empty stack of group identifiers with
bounds-checked push/pop, and a named bookmark holding a reader position. -/
structure LexerState where
  stateStack : List Nat
  currentMatch : List Char
  output : List Token
  status : StageStatus
  matchedBookmark : Nat
deriving DecidableEq

/-- `self.current_state()`: the group on top of the stack. -/
def LexerState.currentState (lx : LexerState) : Nat :=
  lx.stateStack.headD 0

/-- `self.push_state(id)`. -/
def LexerState.pushState (lx : LexerState) (id : Nat) : LexerState :=
  { lx with stateStack := id :: lx.stateStack }

/-- `self.pop_state()`.  Modelled from the spec: the pop is bounds-checked
against the always-non-empty stack, so popping the sole root group leaves the
stack unchanged rather than emptying it. -/
def LexerState.popState (lx : LexerState) : LexerState :=
  { lx with stateStack := if 2 ≤ lx.stateStack.length then lx.stateStack.tail else lx.stateStack }

/-- The group identifiers assigned by `TestState::new`: `ROOT` is defined
first (identifier 0), `SEEN FIRST WORD` second (identifier 1). -/
def initialState : Nat := 0

/-- The `SEEN FIRST WORD` group identifier. -/
def seenFirstWordState : Nat := 1

/-- `self.groups().group(id).name`, from the `define_group` calls in
`TestState::new`. -/
def groupName (g : Nat) : String :=
  if g = 0 then "ROOT" else if g = 1 then "SEEN FIRST WORD" else "UNKNOWN"

/-- The freshly constructed lexer state of `TestLexer::new()`: the stack
holds only the root group, the buffers are empty, and the bookmark is at the
initial reader position. -/
def initLexer : LexerState :=
  { stateStack := [initialState]
    currentMatch := []
    output := []
    status := .initial
    matchedBookmark := 0 }

-- ====================
-- === Rule actions ===
-- ====================

/-- `TestLexer::on_first_word`: emit a `Word` token from `current_match` and
push the `SEEN FIRST WORD` group. -/
def on_first_word (lx : LexerState) : LexerState :=
  let str := lx.currentMatch
  let lx := { lx with output := lx.output ++ [Token.word str] }
  lx.pushState seenFirstWordState

/-- `TestLexer::on_err_suffix_first_word`: emit an `Unrecognized` token from
`current_match`. -/
def on_err_suffix_first_word (lx : LexerState) : LexerState :=
  { lx with output := lx.output ++ [Token.unrecognized lx.currentMatch] }

/-- `TestLexer::on_no_err_suffix_first_word`: does nothing. -/
def on_no_err_suffix_first_word (lx : LexerState) : LexerState :=
  lx

/-- `TestLexer::on_spaced_word`: emit a `Word` token from the trimmed
`current_match`. -/
def on_spaced_word (lx : LexerState) : LexerState :=
  { lx with output := lx.output ++ [Token.word (trimChars lx.currentMatch)] }

/-- `TestLexer::on_err_suffix`: emit an `Unrecognized` token and pop back to
the root group. -/
def on_err_suffix (lx : LexerState) : LexerState :=
  (on_err_suffix_first_word lx).popState

/-- `TestLexer::on_no_err_suffix`: pop back to the root group. -/
def on_no_err_suffix (lx : LexerState) : LexerState :=
  (on_no_err_suffix_first_word lx).popState

/-- `group_G_rule_R`: the action bound to rule `R` of group `G`, exactly as
in the generated `group_0_rule_0` .. `group_1_rule_3` wrappers. -/
def ruleAction (g r : Nat) : LexerState → LexerState :=
  match g, r with
  | 0, 0 => on_first_word
  | 0, 1 => on_first_word
  | 0, 2 => on_no_err_suffix_first_word
  | 0, 3 => on_err_suffix_first_word
  | 1, 0 => on_spaced_word
  | 1, 1 => on_spaced_word
  | 1, 2 => on_no_err_suffix
  | 1, 3 => on_err_suffix
  | _, _ => id

-- ====================
-- === Run machinery ===
-- ====================

/-- The full machine threaded through one run: the reader plus the lexer
state (in the source these are `reader` and `self`). -/
structure Machine where
  reader : Reader
  lx : LexerState
deriving DecidableEq

/-- Replace the driver status (`self.status = ...`). -/
def Machine.setStatus (m : Machine) (st : StageStatus) : Machine :=
  { m with lx := { m.lx with status := st } }

/-- The result of running driver code that may `panic!`: either a value, a
panic with the panic message (a process abort in Rust), or fuel exhaustion of
the Lean model of the unbounded source loops (proved unreachable below). -/
inductive RunRes (α : Type) where
  | ok (a : α)
  | panicked (msg : String)
  | fuelOut
deriving DecidableEq

/-- One arm of a generated `match u64::from(reader.character())` dispatch:
either continue scanning in another sub-state, or fire rule `r` of group
`g` (an accepting transition). -/
inductive TransArm where
  | step (s : Nat)
  | rule (g r : Nat)
deriving DecidableEq

/-- First-match semantics of a Rust `match` over inclusive integer ranges:
the first arm whose range contains the scrutinee wins.  The final `_` arm of
each generated match is represented as the full range `(0, u64MAX)`. -/
def firstMatch : List (Nat × Nat × TransArm) → Nat → Option TransArm
  | [], _ => none
  | (lo, hi, a) :: rest, v => if lo ≤ v ∧ v ≤ hi then some a else firstMatch rest v

/-- The body shared by every accepting transition of the generated code, in
source order: capture the match buffer into `current_match`
(`self.current_match = reader.pop_result()`), invoke the rule's action
(`self.group_g_rule_r(reader)`), update the "matched" bookmark to the
current reader position (`self.bookmarks.bookmark(matched_bookmark,
reader)`), and report `StageStatus::ExitSuccess`. -/
def fireRule (g r : Nat) (m : Machine) : Machine × StageStatus :=
  let captured := m.reader.popResult
  let lx := { m.lx with currentMatch := captured.1 }
  let lx := ruleAction g r lx
  let lx := { lx with matchedBookmark := m.reader.pos }
  ({ reader := captured.2, lx := lx }, .exitSuccess)

/-- Interpret one sub-state's interval dispatch table on the current symbol.
The `none` case models a non-exhaustive `match`, which the totality of every
generated table makes unreachable. -/
def runSubState (arms : List (Nat × Nat × TransArm)) (m : Machine) :
    RunRes (Machine × StageStatus) :=
  match firstMatch arms (charU64 m.reader.character) with
  | some (.step s) => .ok (m, .continueWith s)
  | some (.rule g r) => .ok (fireRule g r m)
  | none => .panicked "Nonexhaustive dispatch match."

-- === Group 0 (ROOT) dispatch tables, from `state_0_to_0` .. `state_0_to_6` ===

/-- Arms of `TestLexer::state_0_to_0`. -/
def state_0_to_0 : List (Nat × Nat × TransArm) :=
  [(0, 96, .step 1), (97, 97, .step 2), (98, 98, .step 3),
   (99, 18446744073709551614, .step 1), (0, u64MAX, .step 4)]

/-- Arms of `TestLexer::state_0_to_1`. -/
def state_0_to_1 : List (Nat × Nat × TransArm) :=
  [(0, u64MAX, .rule 0 3)]

/-- Arms of `TestLexer::state_0_to_2`. -/
def state_0_to_2 : List (Nat × Nat × TransArm) :=
  [(0, 96, .rule 0 0), (97, 97, .step 5), (0, u64MAX, .rule 0 0)]

/-- Arms of `TestLexer::state_0_to_3`. -/
def state_0_to_3 : List (Nat × Nat × TransArm) :=
  [(0, 97, .rule 0 1), (98, 98, .step 6), (0, u64MAX, .rule 0 1)]

/-- Arms of `TestLexer::state_0_to_4`. -/
def state_0_to_4 : List (Nat × Nat × TransArm) :=
  [(0, u64MAX, .rule 0 2)]

/-- Arms of `TestLexer::state_0_to_5`. -/
def state_0_to_5 : List (Nat × Nat × TransArm) :=
  [(0, 96, .rule 0 0), (97, 97, .step 5), (0, u64MAX, .rule 0 0)]

/-- Arms of `TestLexer::state_0_to_6`. -/
def state_0_to_6 : List (Nat × Nat × TransArm) :=
  [(0, 97, .rule 0 1), (98, 98, .step 6), (0, u64MAX, .rule 0 1)]

-- === Group 1 (SEEN FIRST WORD) dispatch tables, `state_1_to_0` .. `state_1_to_7` ===

/-- Arms of `TestLexer::state_1_to_0`. -/
def state_1_to_0 : List (Nat × Nat × TransArm) :=
  [(0, 31, .step 1), (32, 32, .step 2),
   (33, 18446744073709551614, .step 1), (0, u64MAX, .step 3)]

/-- Arms of `TestLexer::state_1_to_1`. -/
def state_1_to_1 : List (Nat × Nat × TransArm) :=
  [(0, u64MAX, .rule 1 3)]

/-- Arms of `TestLexer::state_1_to_2`. -/
def state_1_to_2 : List (Nat × Nat × TransArm) :=
  [(0, 96, .rule 1 3), (97, 97, .step 4), (98, 98, .step 5), (0, u64MAX, .rule 1 3)]

/-- Arms of `TestLexer::state_1_to_3`. -/
def state_1_to_3 : List (Nat × Nat × TransArm) :=
  [(0, u64MAX, .rule 1 2)]

/-- Arms of `TestLexer::state_1_to_4`. -/
def state_1_to_4 : List (Nat × Nat × TransArm) :=
  [(0, 96, .rule 1 0), (97, 97, .step 6), (0, u64MAX, .rule 1 0)]

/-- Arms of `TestLexer::state_1_to_5`. -/
def state_1_to_5 : List (Nat × Nat × TransArm) :=
  [(0, 97, .rule 1 1), (98, 98, .step 7), (0, u64MAX, .rule 1 1)]

/-- Arms of `TestLexer::state_1_to_6`. -/
def state_1_to_6 : List (Nat × Nat × TransArm) :=
  [(0, 96, .rule 1 0), (97, 97, .step 6), (0, u64MAX, .rule 1 0)]

/-- Arms of `TestLexer::state_1_to_7`. -/
def state_1_to_7 : List (Nat × Nat × TransArm) :=
  [(0, 97, .rule 1 1), (98, 98, .step 7), (0, u64MAX, .rule 1 1)]

/-- All fifteen generated sub-state dispatch tables. -/
def allSubStates : List (List (Nat × Nat × TransArm)) :=
  [state_0_to_0, state_0_to_1, state_0_to_2, state_0_to_3, state_0_to_4,
   state_0_to_5, state_0_to_6,
   state_1_to_0, state_1_to_1, state_1_to_2, state_1_to_3, state_1_to_4,
   state_1_to_5, state_1_to_6, state_1_to_7]

/-- `TestLexer::dispatch_in_state_0`: select the sub-state transition
function of the ROOT group; an out-of-range sub-state is
`unreachable_panic!`. -/
def dispatch_in_state_0 (j : Nat) (m : Machine) : RunRes (Machine × StageStatus) :=
  match j with
  | 0 => runSubState state_0_to_0 m
  | 1 => runSubState state_0_to_1 m
  | 2 => runSubState state_0_to_2 m
  | 3 => runSubState state_0_to_3 m
  | 4 => runSubState state_0_to_4 m
  | 5 => runSubState state_0_to_5 m
  | 6 => runSubState state_0_to_6 m
  | _ => .panicked "Unreachable state reached in lexer."

/-- `TestLexer::dispatch_in_state_1`: select the sub-state transition
function of the SEEN FIRST WORD group. -/
def dispatch_in_state_1 (j : Nat) (m : Machine) : RunRes (Machine × StageStatus) :=
  match j with
  | 0 => runSubState state_1_to_0 m
  | 1 => runSubState state_1_to_1 m
  | 2 => runSubState state_1_to_2 m
  | 3 => runSubState state_1_to_3 m
  | 4 => runSubState state_1_to_4 m
  | 5 => runSubState state_1_to_5 m
  | 6 => runSubState state_1_to_6 m
  | 7 => runSubState state_1_to_7 m
  | _ => .panicked "Unreachable state reached in lexer."

/-- `TestLexer::step`: dispatch in the group currently on top of the state
stack; any other group identifier is `unreachable_panic!`. -/
def step (next : Nat) (m : Machine) : RunRes (Machine × StageStatus) :=
  match m.lx.currentState with
  | 0 => dispatch_in_state_0 next m
  | 1 => dispatch_in_state_1 next m
  | _ => .panicked "Unreachable state reached in lexer."

-- ======================
-- === Driver run loop ===
-- ======================

/-- The body of the `while let Some(next_state) = self.status.continue_as()`
loop of `TestLexer::run_current_state`, with an explicit fuel bound standing
in for the unbounded source loop (sufficient fuel is proved below).  One
iteration: step the dispatch, force `ExitFinished` when the previous
character was EOF and the reader is exhausted, recompute the EOF flag, and —
if the status still continues — append the decoded character to the match
buffer (panicking on the reader's `EndOfGroup` or other errors, exactly as
the source does) and advance the reader. -/
def runCurrentStateAux : Nat → Bool → Machine → RunRes Machine
  | 0, _, _ => .fuelOut
  | fuel + 1, finished, m =>
    match m.lx.status.continueAs with
    | none => .ok m
    | some next =>
      match step next m with
      | .panicked e => .panicked e
      | .fuelOut => .fuelOut
      | .ok (m1, st) =>
        let st := if finished && m1.reader.isFinished then .exitFinished else st
        let m2 := m1.setStatus st
        let finished2 := m2.reader.character.isNone
        if st.shouldContinue then
          match m2.reader.character with
          | some (.ch c) =>
            runCurrentStateAux fuel finished2
              { m2 with reader := (m2.reader.appendResult c).advanceChar }
          | none =>
            runCurrentStateAux fuel finished2 { m2 with reader := m2.reader.advanceChar }
          | some .endOfGroup =>
            .panicked ("Missing rules for state " ++ groupName m2.lx.currentState ++ ".")
          | some .otherErr => .panicked "Unexpected error!"
        else
          runCurrentStateAux fuel finished2 m2

/-- `TestLexer::run_current_state`: reset the status to `Initial` and run the
scan loop.  The fuel `input.length + 4` is sufficient for the source's
unbounded loop, which is proved below. -/
def runCurrentState (m : Machine) : RunRes Machine :=
  runCurrentStateAux (m.reader.input.length + 4) false (m.setStatus .initial)

/-- The outcome kind of a whole run: `LexingResult::success`,
`LexingResult::partial` (named `incomplete` here) or
`LexingResult::failure`. -/
inductive ResultKind where
  | success
  | incomplete
  | failure
deriving DecidableEq

/-- `LexingResult<TokenStream>`: the tri-state outcome together with the
token stream taken from the lexer output. -/
structure LexingResult where
  kind : ResultKind
  tokens : List Token
deriving DecidableEq

/-- The `while self.run_current_state(&mut reader) == StageStatus::ExitSuccess`
loop of `TestLexer::run`, with fuel for the Lean model (sufficiency proved
below). -/
def runLoop : Nat → Machine → RunRes Machine
  | 0, _ => .fuelOut
  | fuel + 1, m =>
    match runCurrentState m with
    | .ok m1 => if m1.lx.status = .exitSuccess then runLoop fuel m1 else .ok m1
    | .panicked e => .panicked e
    | .fuelOut => .fuelOut

/-- `Definition::set_up` for `TestLexer`: a no-op. -/
def set_up (lx : LexerState) : LexerState := lx

/-- `Definition::tear_down` for `TestLexer`: a no-op. -/
def tear_down (lx : LexerState) : LexerState := lx

/-- The machine at the start of the run loop: a fresh reader over `input`
advanced once (`reader.advance_char(&mut self.bookmarks)`), paired with the
entry lexer state. -/
def startMachine (lx : LexerState) (input : List Sym) : Machine :=
  { reader := Reader.advanceChar { input := input, pos := 0, result := [] }, lx := lx }

/-- `TestLexer::run`: set up, advance the reader once, loop scans while they
exit successfully, then classify the final status — `ExitFinished` is
`success`, `ExitFail` is `failure`, anything else is `partial` — taking the
accumulated output into the result (`mem::take(&mut self.output)`) and
tearing down.  Returns the `LexingResult` together with the final lexer
state. -/
def run (lx : LexerState) (input : List Sym) : RunRes (LexingResult × LexerState) :=
  let m := startMachine (set_up lx) input
  match runLoop (input.length + 2) m with
  | .ok mF =>
    let result : LexingResult :=
      match mF.lx.status with
      | .exitFinished => { kind := .success, tokens := mF.lx.output }
      | .exitFail => { kind := .failure, tokens := mF.lx.output }
      | _ => { kind := .incomplete, tokens := mF.lx.output }
    .ok (result, tear_down { mF.lx with output := [] })
  | .panicked e => .panicked e
  | .fuelOut => .fuelOut

-- ===================================
-- === Predicates over run states ====
-- ===================================

/-- An input whose every symbol is a successfully decoded character (the
reader produced no decoding or I/O error markers). -/
def charOnly (input : List Sym) : Prop :=
  ∀ s ∈ input, ∃ c, s = Sym.ch c

/-- The invariant of the group stack: it is never empty and holds only the
two group identifiers of this lexer. -/
def StackOK (lx : LexerState) : Prop :=
  lx.stateStack ≠ [] ∧ ∀ g ∈ lx.stateStack, g ≤ 1

/-- The actions reachable from the generated dispatch code. -/
def ruleActionsList : List (LexerState → LexerState) :=
  [on_first_word, on_err_suffix_first_word, on_no_err_suffix_first_word,
   on_spaced_word, on_err_suffix, on_no_err_suffix]

/-- A transition arm of a group-0 sub-state: the continuation sub-states stay
below 7 and the fired rules belong to group 0. -/
def armOK6 (a : TransArm) : Prop :=
  match a with
  | .step k => k ≤ 6
  | .rule g r => g = 0 ∧ r ≤ 3

/-- A transition arm of a group-1 sub-state: the continuation sub-states stay
below 8 and the fired rules belong to group 1. -/
def armOK7 (a : TransArm) : Prop :=
  match a with
  | .step k => k ≤ 7
  | .rule g r => g = 1 ∧ r ≤ 3

instance : DecidablePred armOK6 := by
  intro a
  unfold armOK6
  exact match a with
  | .step k => inferInstanceAs (Decidable (k ≤ 6))
  | .rule g r => inferInstanceAs (Decidable (g = 0 ∧ r ≤ 3))

instance : DecidablePred armOK7 := by
  intro a
  unfold armOK7
  exact match a with
  | .step k => inferInstanceAs (Decidable (k ≤ 7))
  | .rule g r => inferInstanceAs (Decidable (g = 1 ∧ r ≤ 3))

/-- Whether a transition arm is a pure continuation (no rule fired). -/
def isStepArm (a : TransArm) : Bool :=
  match a with
  | .step _ => true
  | .rule _ _ => false

/-- The driver statuses that can enter a scan iteration: `ExitFail` never
arises from the generated dispatch, and a pending continuation always names
an existing sub-state of the current group. -/
def StatusBound (m : Machine) : Prop :=
  m.lx.status ≠ .exitFail ∧
    ∀ n, m.lx.status = .continueWith n → n ≤ 7 ∧ (m.lx.currentState = 0 → n ≤ 6)

/-- A dispatch table holds a final catch-all arm over the whole symbol
range. -/
def hasCatchAll (L : List (Nat × Nat × TransArm)) : Bool :=
  L.any (fun t => t.1 = 0 && t.2.1 = u64MAX)

-- ======================
-- === Basic lemmas =====
-- ======================

theorem char_toNat_lt (c : Char) : c.toNat < 1114112 := by
  have h := c.valid
  rcases h with h | ⟨h1, h2⟩ <;> unfold Char.toNat <;> omega

theorem symToU64_le (s : Sym) : symToU64 s ≤ u64MAX - 1 := by
  cases s with
  | ch c => have := char_toNat_lt c; simp only [symToU64, u64MAX]; omega
  | endOfGroup => simp [symToU64]
  | otherErr => simp [symToU64, u64MAX]

theorem charU64_le (o : Option Sym) : charU64 o ≤ u64MAX := by
  cases o with
  | none => simp [charU64]
  | some s => have := symToU64_le s; simp only [charU64, u64MAX] at *; omega

theorem charU64_ne_eof (s : Sym) : charU64 (some s) ≠ u64MAX := by
  have := symToU64_le s
  simp only [charU64, u64MAX] at *
  omega

theorem pushState_stackOK (lx : LexerState) (id : Nat) (hid : id ≤ 1)
    (h : StackOK lx) : StackOK (lx.pushState id) := by
  obtain ⟨h1, h2⟩ := h
  refine ⟨by simp [LexerState.pushState], ?_⟩
  intro g hg
  simp only [LexerState.pushState, List.mem_cons] at hg
  rcases hg with rfl | hg
  · exact hid
  · exact h2 g hg

theorem popState_stackOK (lx : LexerState) (h : StackOK lx) :
    StackOK lx.popState := by
  obtain ⟨h1, h2⟩ := h
  obtain ⟨stack, cm, out, st, mb⟩ := lx
  simp only [StackOK, LexerState.popState] at *
  cases stack with
  | nil => exact absurd rfl h1
  | cons a t =>
    cases t with
    | nil =>
      rw [if_neg (by simp)]
      exact ⟨h1, h2⟩
    | cons b u =>
      have hle : 2 ≤ (a :: b :: u).length := by simp
      rw [if_pos hle]
      refine ⟨by simp, ?_⟩
      intro g hg
      exact h2 g (List.mem_cons_of_mem a hg)

theorem ruleAction_stackOK (g r : Nat) (lx : LexerState) (h : StackOK lx) :
    StackOK (ruleAction g r lx) := by
  have hpush : ∀ lx', StackOK lx' → StackOK (lx'.pushState seenFirstWordState) :=
    fun lx' h' => pushState_stackOK lx' _ (by simp [seenFirstWordState]) h'
  have hout : ∀ lx' (t : Token), StackOK lx' →
      StackOK { lx' with output := lx'.output ++ [t] } := by
    intro lx' t h'; exact h'
  match g, r with
  | 0, 0 =>
    simp only [ruleAction, on_first_word]
    exact hpush _ h
  | 0, 1 =>
    simp only [ruleAction, on_first_word]
    exact hpush _ h
  | 0, 2 => simpa [ruleAction, on_no_err_suffix_first_word] using h
  | 0, 3 => simpa [ruleAction, on_err_suffix_first_word] using h
  | 1, 0 => simpa [ruleAction, on_spaced_word] using h
  | 1, 1 => simpa [ruleAction, on_spaced_word] using h
  | 1, 2 =>
    simp only [ruleAction, on_no_err_suffix, on_no_err_suffix_first_word]
    exact popState_stackOK _ h
  | 1, 3 =>
    simp only [ruleAction, on_err_suffix, on_err_suffix_first_word]
    exact popState_stackOK _ (by exact h)
  | g + 2, r => simpa [ruleAction] using h
  | 1, r + 4 => simpa [ruleAction] using h
  | 0, r + 4 => simpa [ruleAction] using h

theorem ruleAction_status (g r : Nat) (lx : LexerState) :
    (ruleAction g r lx).status = lx.status := by
  match g, r with
  | 0, 0 => rfl
  | 0, 1 => rfl
  | 0, 2 => rfl
  | 0, 3 => rfl
  | 1, 0 => rfl
  | 1, 1 => rfl
  | 1, 2 => rfl
  | 1, 3 => rfl
  | g + 2, r => rfl
  | 1, r + 4 => rfl
  | 0, r + 4 => rfl

theorem firstMatch_mem (L : List (Nat × Nat × TransArm)) (v : Nat) (a : TransArm)
    (h : firstMatch L v = some a) : a ∈ L.map (fun t => t.2.2) := by
  induction L with
  | nil => simp [firstMatch] at h
  | cons t rest ih =>
    rw [firstMatch] at h
    split at h
    · simp only [Option.some.injEq] at h
      subst h
      simp
    · simp only [List.map_cons, List.mem_cons]
      exact Or.inr (ih h)

theorem firstMatch_total (L : List (Nat × Nat × TransArm)) (v : Nat)
    (hv : v ≤ u64MAX) : (∃ a, (0, u64MAX, a) ∈ L) → (firstMatch L v).isSome := by
  induction L with
  | nil =>
    rintro ⟨a, ha⟩
    simp at ha
  | cons t rest ih =>
    rintro ⟨a, ha⟩
    rw [firstMatch]
    split
    · simp
    · rename_i hcond
      rcases List.mem_cons.mp ha with rfl | ha'
      · exact absurd ⟨Nat.zero_le v, hv⟩ hcond
      · exact ih ⟨a, ha'⟩

theorem runSubState_spec (L : List (Nat × Nat × TransArm)) (m m1 : Machine)
    (st : StageStatus) (h : runSubState L m = .ok (m1, st)) :
    ∃ a, a ∈ L.map (fun t => t.2.2) ∧
      ((∃ k, a = .step k ∧ m1 = m ∧ st = .continueWith k) ∨
       (∃ g r, a = .rule g r ∧ (m1, st) = fireRule g r m)) := by
  rw [runSubState.eq_def] at h
  split at h
  · rename_i k hfm
    simp only [RunRes.ok.injEq, Prod.mk.injEq] at h
    exact ⟨.step k, firstMatch_mem _ _ _ hfm, Or.inl ⟨k, rfl, h.1.symm, h.2.symm⟩⟩
  · rename_i g r hfm
    simp only [RunRes.ok.injEq] at h
    exact ⟨.rule g r, firstMatch_mem _ _ _ hfm, Or.inr ⟨g, r, rfl, h.symm⟩⟩
  · simp at h

theorem fireRule_reader (g r : Nat) (m : Machine) :
    (fireRule g r m).1.reader = { m.reader with result := [] } := rfl

theorem fireRule_status (g r : Nat) (m : Machine) :
    (fireRule g r m).2 = .exitSuccess := rfl

theorem fireRule_lx_status (g r : Nat) (m : Machine) :
    (fireRule g r m).1.lx.status = m.lx.status := by
  show ((ruleAction g r { m.lx with currentMatch := m.reader.result }).status = _)
  rw [ruleAction_status]

theorem fireRule_bookmark (g r : Nat) (m : Machine) :
    (fireRule g r m).1.lx.matchedBookmark = m.reader.pos := rfl

theorem fireRule_stackOK (g r : Nat) (m : Machine) (h : StackOK m.lx) :
    StackOK (fireRule g r m).1.lx := by
  have h' : StackOK { m.lx with currentMatch := m.reader.result } := h
  have h2 := ruleAction_stackOK g r _ h'
  obtain ⟨ha, hb⟩ := h2
  exact ⟨ha, hb⟩

theorem step_spec (next : Nat) (m m1 : Machine) (st : StageStatus)
    (h : step next m = .ok (m1, st)) :
    (m1 = m ∧ ∃ k, st = .continueWith k ∧ k ≤ 7 ∧
        (m.lx.currentState = 0 → k ≤ 6)) ∨
    (∃ g r, g ≤ 1 ∧ r ≤ 3 ∧ (m1, st) = fireRule g r m) := by
  rw [step.eq_def] at h
  split at h
  case _ hcs =>
    rw [dispatch_in_state_0.eq_def] at h
    have handle : ∀ L, (∀ a ∈ L.map (fun t => t.2.2), armOK6 a) →
        runSubState L m = .ok (m1, st) →
        (m1 = m ∧ ∃ k, st = .continueWith k ∧ k ≤ 7 ∧
            (m.lx.currentState = 0 → k ≤ 6)) ∨
        (∃ g r, g ≤ 1 ∧ r ≤ 3 ∧ (m1, st) = fireRule g r m) := by
      intro L hL hrun
      obtain ⟨a, ham, hcases⟩ := runSubState_spec L m m1 st hrun
      have hok := hL a ham
      rcases hcases with ⟨k, rfl, rfl, rfl⟩ | ⟨g, r, rfl, heq⟩
      · exact Or.inl ⟨rfl, k, rfl, le_trans hok (by omega), fun _ => hok⟩
      · obtain ⟨hg, hr⟩ := hok
        exact Or.inr ⟨g, r, by omega, hr, heq⟩
    split at h
    · exact handle _ (by decide) h
    · exact handle _ (by decide) h
    · exact handle _ (by decide) h
    · exact handle _ (by decide) h
    · exact handle _ (by decide) h
    · exact handle _ (by decide) h
    · exact handle _ (by decide) h
    · simp at h
  case _ hcs =>
    rw [dispatch_in_state_1.eq_def] at h
    have handle : ∀ L, (∀ a ∈ L.map (fun t => t.2.2), armOK7 a) →
        runSubState L m = .ok (m1, st) →
        (m1 = m ∧ ∃ k, st = .continueWith k ∧ k ≤ 7 ∧
            (m.lx.currentState = 0 → k ≤ 6)) ∨
        (∃ g r, g ≤ 1 ∧ r ≤ 3 ∧ (m1, st) = fireRule g r m) := by
      intro L hL hrun
      obtain ⟨a, ham, hcases⟩ := runSubState_spec L m m1 st hrun
      have hok := hL a ham
      rcases hcases with ⟨k, rfl, rfl, rfl⟩ | ⟨g, r, rfl, heq⟩
      · exact Or.inl ⟨rfl, k, rfl, hok, fun h0 => by rw [hcs] at h0; omega⟩
      · obtain ⟨hg, hr⟩ := hok
        exact Or.inr ⟨g, r, by omega, hr, heq⟩
    split at h
    · exact handle _ (by decide) h
    · exact handle _ (by decide) h
    · exact handle _ (by decide) h
    · exact handle _ (by decide) h
    · exact handle _ (by decide) h
    · exact handle _ (by decide) h
    · exact handle _ (by decide) h
    · exact handle _ (by decide) h
    · simp at h
  case _ => simp at h

theorem step_zero_continues (m m1 : Machine) (st : StageStatus)
    (h : step 0 m = .ok (m1, st)) : m1 = m ∧ ∃ k, st = .continueWith k := by
  have key : ∀ L, (∀ b ∈ L.map (fun t => t.2.2), isStepArm b = true) →
      runSubState L m = .ok (m1, st) → m1 = m ∧ ∃ k, st = .continueWith k := by
    intro L hL hrun
    obtain ⟨a, ham, hcases⟩ := runSubState_spec L m m1 st hrun
    have hs := hL a ham
    rcases hcases with ⟨k, rfl, rfl, rfl⟩ | ⟨g, r, rfl, heq⟩
    · exact ⟨rfl, k, rfl⟩
    · simp [isStepArm] at hs
  rw [step.eq_def] at h
  split at h
  · exact key state_0_to_0 (by decide) h
  · exact key state_1_to_0 (by decide) h
  · simp at h

theorem aux_stop (fuel : Nat) (f : Bool) (m : Machine)
    (h : m.lx.status.continueAs = none) (hf : 1 ≤ fuel) :
    runCurrentStateAux fuel f m = .ok m := by
  cases fuel with
  | zero => omega
  | succ fuel =>
    rw [show fuel + 1 = Nat.succ fuel from rfl, runCurrentStateAux.eq_2, h]

theorem character_none_iff (r : Reader) (hpos : 1 ≤ r.pos) :
    r.character = none ↔ r.input.length + 1 ≤ r.pos := by
  rw [Reader.character, List.get?_eq_none]
  omega

theorem charOnly_character (r : Reader) (hco : charOnly r.input) (s : Sym)
    (h : r.character = some s) : ∃ c, s = Sym.ch c := by
  have hmem : s ∈ r.input := List.get?_mem h
  exact hco s hmem

theorem hasCatchAll_exists (L : List (Nat × Nat × TransArm))
    (h : hasCatchAll L = true) : ∃ a, (0, u64MAX, a) ∈ L := by
  rw [hasCatchAll, List.any_eq_true] at h
  obtain ⟨⟨lo, hi, a⟩, hmem, hp⟩ := h
  simp only [Bool.and_eq_true, decide_eq_true_eq] at hp
  obtain ⟨rfl, rfl⟩ := hp
  exact ⟨a, hmem⟩

theorem runSubState_ok (L : List (Nat × Nat × TransArm)) (m : Machine)
    (h : hasCatchAll L = true) : ∃ m1 st, runSubState L m = .ok (m1, st) := by
  have htot := firstMatch_total L (charU64 m.reader.character)
    (charU64_le _) (hasCatchAll_exists L h)
  rw [runSubState.eq_def]
  cases hfm : firstMatch L (charU64 m.reader.character) with
  | none => rw [hfm] at htot; simp at htot
  | some a =>
    cases a with
    | step k => exact ⟨m, .continueWith k, rfl⟩
    | rule g r => exact ⟨(fireRule g r m).1, (fireRule g r m).2, rfl⟩

theorem step_ok (next : Nat) (m : Machine) (hstack : StackOK m.lx)
    (h7 : next ≤ 7) (h6 : m.lx.currentState = 0 → next ≤ 6) :
    ∃ m1 st, step next m = .ok (m1, st) := by
  obtain ⟨hne, hall⟩ := hstack
  have hcs : m.lx.currentState = 0 ∨ m.lx.currentState = 1 := by
    cases hstk : m.lx.stateStack with
    | nil => exact absurd hstk hne
    | cons g t =>
      have := hall g (by rw [hstk]; exact List.mem_cons_self g t)
      have : m.lx.currentState = g := by rw [LexerState.currentState, hstk]; rfl
      omega
  rw [step.eq_def]
  rcases hcs with hcs | hcs
  · rw [hcs]
    have h6' := h6 hcs
    show ∃ m1 st, dispatch_in_state_0 next m = .ok (m1, st)
    rw [dispatch_in_state_0.eq_def]
    interval_cases next
    · exact runSubState_ok state_0_to_0 m (by decide)
    · exact runSubState_ok state_0_to_1 m (by decide)
    · exact runSubState_ok state_0_to_2 m (by decide)
    · exact runSubState_ok state_0_to_3 m (by decide)
    · exact runSubState_ok state_0_to_4 m (by decide)
    · exact runSubState_ok state_0_to_5 m (by decide)
    · exact runSubState_ok state_0_to_6 m (by decide)
  · rw [hcs]
    show ∃ m1 st, dispatch_in_state_1 next m = .ok (m1, st)
    rw [dispatch_in_state_1.eq_def]
    interval_cases next
    · exact runSubState_ok state_1_to_0 m (by decide)
    · exact runSubState_ok state_1_to_1 m (by decide)
    · exact runSubState_ok state_1_to_2 m (by decide)
    · exact runSubState_ok state_1_to_3 m (by decide)
    · exact runSubState_ok state_1_to_4 m (by decide)
    · exact runSubState_ok state_1_to_5 m (by decide)
    · exact runSubState_ok state_1_to_6 m (by decide)
    · exact runSubState_ok state_1_to_7 m (by decide)

theorem aux_ok (fuel : Nat) :
    ∀ (f : Bool) (m : Machine),
    charOnly m.reader.input →
    StackOK m.lx →
    StatusBound m →
    1 ≤ m.reader.pos →
    m.reader.pos ≤ m.reader.input.length + 2 →
    (m.lx.status = .exitSuccess → m.reader.pos ≤ m.reader.input.length + 1) →
    (m.lx.status.shouldContinue = true → m.reader.input.length + 2 ≤ m.reader.pos →
      f = true) →
    m.reader.input.length + 4 ≤ fuel + m.reader.pos →
    ∃ m', runCurrentStateAux fuel f m = .ok m' ∧
      m'.reader.input = m.reader.input ∧
      StackOK m'.lx ∧
      m.reader.pos ≤ m'.reader.pos ∧
      m'.reader.pos ≤ m.reader.input.length + 2 ∧
      (m'.lx.status = .exitSuccess ∨ m'.lx.status = .exitFinished) ∧
      (m'.lx.status = .exitSuccess → m'.reader.pos ≤ m.reader.input.length + 1) := by
  induction fuel with
  | zero =>
    intro f m _ _ _ _ hpos2 _ _ hfuel
    omega
  | succ fuel ih =>
    intro f m hco hstack hsb hpos1 hpos2 hes hflag hfuel
    cases hca : m.lx.status.continueAs with
    | none =>
      refine ⟨m, aux_stop _ f m hca (by omega), rfl, hstack, le_refl _, hpos2, ?_, hes⟩
      obtain ⟨hnf, _⟩ := hsb
      cases hst : m.lx.status with
      | initial => rw [hst] at hca; exact absurd hca (by simp [StageStatus.continueAs])
      | continueWith n => rw [hst] at hca; exact absurd hca (by simp [StageStatus.continueAs])
      | exitSuccess => exact Or.inl rfl
      | exitFinished => exact Or.inr rfl
      | exitFail => exact absurd hst hnf
    | some next =>
      have hsc : m.lx.status.shouldContinue = true := by
        rw [StageStatus.shouldContinue, hca]; rfl
      have hnext : next ≤ 7 ∧ (m.lx.currentState = 0 → next ≤ 6) := by
        obtain ⟨hnf, hcw⟩ := hsb
        cases hst : m.lx.status with
        | initial =>
          rw [hst] at hca
          simp only [StageStatus.continueAs, Option.some.injEq] at hca
          omega
        | continueWith n =>
          rw [hst] at hca
          simp only [StageStatus.continueAs, Option.some.injEq] at hca
          subst hca
          exact hcw n hst
        | exitSuccess => rw [hst] at hca; simp [StageStatus.continueAs] at hca
        | exitFinished => rw [hst] at hca; simp [StageStatus.continueAs] at hca
        | exitFail => rw [hst] at hca; simp [StageStatus.continueAs] at hca
      obtain ⟨m1, st, hstep⟩ := step_ok next m hstack hnext.1 hnext.2
      rw [show fuel + 1 = Nat.succ fuel from rfl, runCurrentStateAux.eq_2, hca]
      rcases step_spec next m m1 st hstep with ⟨heqm, k, rfl, hk7, hk6⟩ |
        ⟨g, r, hg, hr, heq⟩
      · -- continuation arm: the machine is unchanged and scanning proceeds
        rw [heqm] at hstep
        simp only [hstep]
        by_cases hov : (f && m.reader.isFinished) = true
        · -- end of input already seen: the scan is forced to ExitFinished
          rw [if_pos hov]
          exact ⟨m.setStatus .exitFinished, aux_stop fuel _ _ (by rfl) (by omega), rfl,
            hstack, le_refl _, hpos2, Or.inr rfl, by intro h; simp [Machine.setStatus] at h⟩
        · -- keep scanning: consume the current character and recurse
          rw [if_neg hov]
          have hcasesb : f = false ∨ m.reader.isFinished = false := by
            cases hff : f with
            | false => exact Or.inl rfl
            | true =>
              cases hfin : m.reader.isFinished with
              | false => exact Or.inr rfl
              | true => exact absurd (by rw [hff, hfin]; rfl) hov
          have hposle : m.reader.pos ≤ m.reader.input.length + 1 := by
            rcases hcasesb with hf | hfin
            · by_contra hgt
              push_neg at hgt
              have := hflag hsc (by omega)
              rw [hf] at this
              exact Bool.false_ne_true this
            · rw [Reader.isFinished] at hfin
              simp only [decide_eq_false_iff_not] at hfin
              omega
          simp only [Machine.setStatus, StageStatus.shouldContinue, StageStatus.continueAs,
            Option.isSome]
          cases hch : m.reader.character with
          | none =>
            have hchpos : m.reader.input.length + 1 ≤ m.reader.pos :=
              (character_none_iff m.reader hpos1).mp hch
            obtain ⟨m', hrun, hin, hsk, hp1, hp2, hdisj, hes2⟩ :=
              ih true { reader := m.reader.advanceChar,
                        lx := { m.lx with status := .continueWith k } }
                hco hstack
                ⟨by simp, by
                  intro n hn
                  simp only [StageStatus.continueWith.injEq] at hn
                  subst hn
                  exact ⟨hk7, hk6⟩⟩
                (by simp only [Reader.advanceChar]; omega)
                (by simp only [Reader.advanceChar]; omega)
                (by intro h; simp at h)
                (fun _ _ => rfl)
                (by simp only [Reader.advanceChar]; omega)
            refine ⟨m', ?_, ?_, hsk, ?_, ?_, hdisj, ?_⟩
            · exact hrun
            · simpa [Reader.advanceChar] using hin
            · simp only [Reader.advanceChar] at hp1; omega
            · simp only [Reader.advanceChar] at hp2 ⊢; omega
            · simp only [Reader.advanceChar] at hes2 ⊢; exact hes2
          | some s =>
            obtain ⟨c, rfl⟩ := charOnly_character m.reader hco s hch
            have hchpos : m.reader.pos ≤ m.reader.input.length := by
              rw [Reader.character] at hch
              have hlt := List.get?_eq_some.mp hch
              obtain ⟨hbound, _⟩ := hlt
              omega
            obtain ⟨m', hrun, hin, hsk, hp1, hp2, hdisj, hes2⟩ :=
              ih false { reader := (m.reader.appendResult c).advanceChar,
                         lx := { m.lx with status := .continueWith k } }
                hco hstack
                ⟨by simp, by
                  intro n hn
                  simp only [StageStatus.continueWith.injEq] at hn
                  subst hn
                  exact ⟨hk7, hk6⟩⟩
                (by simp only [Reader.advanceChar, Reader.appendResult]; omega)
                (by simp only [Reader.advanceChar, Reader.appendResult]; omega)
                (by intro h; simp at h)
                (by
                  intro _ hge
                  simp only [Reader.advanceChar, Reader.appendResult] at hge
                  omega)
                (by simp only [Reader.advanceChar, Reader.appendResult]; omega)
            refine ⟨m', ?_, ?_, hsk, ?_, ?_, hdisj, ?_⟩
            · exact hrun
            · simpa [Reader.advanceChar, Reader.appendResult] using hin
            · simp only [Reader.advanceChar, Reader.appendResult] at hp1; omega
            · simp only [Reader.advanceChar, Reader.appendResult] at hp2 ⊢; omega
            · simp only [Reader.advanceChar, Reader.appendResult] at hes2 ⊢; exact hes2
      · -- accepting arm: a rule fired and the scan reports ExitSuccess
        have hm1 : m1 = (fireRule g r m).1 := congrArg Prod.fst heq
        have hstv : st = .exitSuccess := by
          have := congrArg Prod.snd heq
          rw [fireRule_status] at this
          exact this
        subst hm1
        subst hstv
        simp only [hstep]
        have hins : (fireRule g r m).1.reader.input = m.reader.input := by
          rw [fireRule_reader]
        have hpossame : (fireRule g r m).1.reader.pos = m.reader.pos := by
          rw [fireRule_reader]
        by_cases hov : (f && (fireRule g r m).1.reader.isFinished) = true
        · rw [if_pos hov]
          refine ⟨(fireRule g r m).1.setStatus .exitFinished,
            aux_stop fuel _ _ (by rfl) (by omega), hins,
            fireRule_stackOK g r m hstack, ?_, ?_, Or.inr rfl,
            by intro h; simp [Machine.setStatus] at h⟩
          · show m.reader.pos ≤ (fireRule g r m).1.reader.pos
            rw [hpossame]
          · show (fireRule g r m).1.reader.pos ≤ m.reader.input.length + 2
            rw [hpossame]; exact hpos2
        · rw [if_neg hov]
          have hcasesb : f = false ∨ (fireRule g r m).1.reader.isFinished = false := by
            cases hff : f with
            | false => exact Or.inl rfl
            | true =>
              cases hfin : (fireRule g r m).1.reader.isFinished with
              | false => exact Or.inr rfl
              | true => exact absurd (by rw [hff, hfin]; rfl) hov
          have hposle : m.reader.pos ≤ m.reader.input.length + 1 := by
            rcases hcasesb with hf | hfin
            · by_contra hgt
              push_neg at hgt
              have := hflag hsc (by omega)
              rw [hf] at this
              exact Bool.false_ne_true this
            · rw [Reader.isFinished] at hfin
              simp only [decide_eq_false_iff_not] at hfin
              rw [hins, hpossame] at hfin
              omega
          refine ⟨(fireRule g r m).1.setStatus .exitSuccess,
            aux_stop fuel _ _ (by rfl) (by omega), hins,
            fireRule_stackOK g r m hstack, ?_, ?_, Or.inl rfl, ?_⟩
          · show m.reader.pos ≤ (fireRule g r m).1.reader.pos
            rw [hpossame]
          · show (fireRule g r m).1.reader.pos ≤ m.reader.input.length + 2
            rw [hpossame]; exact hpos2
          · intro _
            show (fireRule g r m).1.reader.pos ≤ m.reader.input.length + 1
            rw [hpossame]
            exact hposle

theorem runCurrentState_ok (m : Machine)
    (hco : charOnly m.reader.input) (hstack : StackOK m.lx)
    (hpos1 : 1 ≤ m.reader.pos) (hpos2 : m.reader.pos ≤ m.reader.input.length + 1) :
    ∃ m', runCurrentState m = .ok m' ∧
      m'.reader.input = m.reader.input ∧
      StackOK m'.lx ∧
      m.reader.pos + 1 ≤ m'.reader.pos ∧
      m'.reader.pos ≤ m.reader.input.length + 2 ∧
      (m'.lx.status = .exitSuccess ∨ m'.lx.status = .exitFinished) ∧
      (m'.lx.status = .exitSuccess → m'.reader.pos ≤ m.reader.input.length + 1) := by
  rw [runCurrentState]
  obtain ⟨m1, st, hstep⟩ := step_ok 0 (m.setStatus .initial) hstack (by omega) (by omega)
  rcases step_spec 0 (m.setStatus .initial) m1 st hstep with
    ⟨heqm, k, rfl, hk7, hk6⟩ | ⟨g, r, _, _, heqf⟩
  · rw [heqm] at hstep
    rw [show m.reader.input.length + 4 = Nat.succ (m.reader.input.length + 3) from rfl,
      runCurrentStateAux.eq_2]
    have hca0 : (m.setStatus .initial).lx.status.continueAs = some 0 := rfl
    rw [hca0]
    simp only [hstep]
    simp only [Machine.setStatus, Bool.false_and, StageStatus.shouldContinue,
      StageStatus.continueAs, Option.isSome, if_neg (show ¬(false = true) by simp)]
    rcases hch : m.reader.character with _ | s
    · have hchpos : m.reader.input.length + 1 ≤ m.reader.pos :=
        (character_none_iff m.reader hpos1).mp hch
      obtain ⟨m', hrun, hin, hsk, hp1, hp2, hdisj, hes2⟩ :=
        aux_ok (m.reader.input.length + 3) true
          { reader := m.reader.advanceChar,
            lx := { m.lx with status := .continueWith k } }
          hco hstack
          ⟨by simp, by
            intro n hn
            simp only [StageStatus.continueWith.injEq] at hn
            subst hn
            refine ⟨hk7 , ?_⟩
            intro h0
            exact hk6 h0⟩
          (by simp only [Reader.advanceChar]; omega)
          (by simp only [Reader.advanceChar]; omega)
          (by intro h; simp at h)
          (fun _ _ => rfl)
          (by simp only [Reader.advanceChar]; omega)
      refine ⟨m', hrun, ?_, hsk, ?_, ?_, hdisj, ?_⟩
      · simpa [Reader.advanceChar] using hin
      · simp only [Reader.advanceChar] at hp1; omega
      · simp only [Reader.advanceChar] at hp2 ⊢; omega
      · simp only [Reader.advanceChar] at hes2 ⊢; exact hes2
    · obtain ⟨c, rfl⟩ := charOnly_character m.reader hco s hch
      have hchpos : m.reader.pos ≤ m.reader.input.length := by
        rw [Reader.character] at hch
        obtain ⟨hbound, _⟩ := List.get?_eq_some.mp hch
        omega
      obtain ⟨m', hrun, hin, hsk, hp1, hp2, hdisj, hes2⟩ :=
        aux_ok (m.reader.input.length + 3) false
          { reader := (m.reader.appendResult c).advanceChar,
            lx := { m.lx with status := .continueWith k } }
          hco hstack
          ⟨by simp, by
            intro n hn
            simp only [StageStatus.continueWith.injEq] at hn
            subst hn
            refine ⟨hk7, ?_⟩
            intro h0
            exact hk6 h0⟩
          (by simp only [Reader.advanceChar, Reader.appendResult]; omega)
          (by simp only [Reader.advanceChar, Reader.appendResult]; omega)
          (by intro h; simp at h)
          (by
            intro _ hge
            simp only [Reader.advanceChar, Reader.appendResult] at hge
            omega)
          (by simp only [Reader.advanceChar, Reader.appendResult]; omega)
      refine ⟨m', hrun, ?_, hsk, ?_, ?_, hdisj, ?_⟩
      · simpa [Reader.advanceChar, Reader.appendResult] using hin
      · simp only [Reader.advanceChar, Reader.appendResult] at hp1; omega
      · simp only [Reader.advanceChar, Reader.appendResult] at hp2 ⊢; omega
      · simp only [Reader.advanceChar, Reader.appendResult] at hes2 ⊢; exact hes2
  · exfalso
    obtain ⟨_, k, hstv⟩ := step_zero_continues _ m1 st hstep
    have h2 := congrArg Prod.snd heqf
    rw [fireRule_status, hstv] at h2
    simp at h2

theorem runLoop_ok (fuel : Nat) :
    ∀ m : Machine, charOnly m.reader.input → StackOK m.lx →
    1 ≤ m.reader.pos → m.reader.pos ≤ m.reader.input.length + 1 →
    m.reader.input.length + 2 ≤ fuel + m.reader.pos →
    ∃ mF, runLoop fuel m = .ok mF ∧ mF.lx.status = .exitFinished ∧
      mF.reader.input = m.reader.input ∧ StackOK mF.lx := by
  induction fuel with
  | zero =>
    intro m _ _ _ hp2 hfuel
    omega
  | succ fuel ih =>
    intro m hco hstack hp1 hp2 hfuel
    obtain ⟨m1, hscan, hin, hsk, hp1', hp2', hdisj, hes⟩ :=
      runCurrentState_ok m hco hstack hp1 hp2
    have hlen : m1.reader.input.length = m.reader.input.length := by rw [hin]
    rw [show fuel + 1 = Nat.succ fuel from rfl, runLoop.eq_2]
    simp only [hscan]
    rcases hdisj with hstS | hstF
    · rw [if_pos hstS]
      obtain ⟨mF, hloop, hfin, hinF, hskF⟩ := ih m1 (by rw [hin]; exact hco) hsk
        (by omega) (by rw [hlen]; exact hes hstS) (by omega)
      exact ⟨mF, hloop, hfin, by rw [hinF, hin], hskF⟩
    · rw [if_neg (by rw [hstF]; simp)]
      exact ⟨m1, rfl, hstF, hin, hsk⟩

theorem aux_bookmark (fuel : Nat) :
    ∀ (f : Bool) (m m' : Machine),
    runCurrentStateAux fuel f m = .ok m' →
    m.lx.matchedBookmark ≤ m.reader.pos →
    m.lx.matchedBookmark ≤ m'.lx.matchedBookmark ∧
      m'.lx.matchedBookmark ≤ m'.reader.pos := by
  induction fuel with
  | zero =>
    intro f m m' h
    rw [runCurrentStateAux.eq_1] at h
    simp at h
  | succ fuel ih =>
    intro f m m' h hmb
    rw [show fuel + 1 = Nat.succ fuel from rfl, runCurrentStateAux.eq_2] at h
    rcases hca : m.lx.status.continueAs with _ | next
    · rw [hca] at h
      have h' : RunRes.ok m = RunRes.ok m' := h
      simp only [RunRes.ok.injEq] at h'
      subst h'
      exact ⟨le_refl _, hmb⟩
    · rw [hca] at h
      rcases hstep : step next m with ⟨m1, st⟩ | e | e
      rotate_left
      · simp only [hstep] at h
        exact absurd h (by simp)
      · simp only [hstep] at h
        exact absurd h (by simp)
      simp only [hstep] at h
      rcases step_spec next m m1 st hstep with ⟨heqm, k, hstv, _, _⟩ |
        ⟨g, r, _, _, heqf⟩
      · rw [heqm, hstv] at h
        by_cases hov : (f && m.reader.isFinished) = true
        · rw [if_pos hov] at h
          have h' : runCurrentStateAux fuel
              ((m.setStatus .exitFinished).reader.character.isNone)
              (m.setStatus .exitFinished) = .ok m' := h
          exact ih _ (m.setStatus .exitFinished) m' h' hmb
        · rw [if_neg hov] at h
          rcases hch : m.reader.character with _ | s
          · have hch' : (m.setStatus (.continueWith k)).reader.character = none := hch
            rw [hch'] at h
            have h' : runCurrentStateAux fuel true
                { reader := m.reader.advanceChar,
                  lx := { m.lx with status := .continueWith k } } = .ok m' := h
            exact ih true
              { reader := m.reader.advanceChar, lx := { m.lx with status := .continueWith k } }
              m' h' (le_trans hmb (Nat.le_succ _))
          · rcases s with c | _ | _
            · have hch' : (m.setStatus (.continueWith k)).reader.character =
                  some (Sym.ch c) := hch
              rw [hch'] at h
              have h' : runCurrentStateAux fuel false
                  { reader := (m.reader.appendResult c).advanceChar,
                    lx := { m.lx with status := .continueWith k } } = .ok m' := h
              exact ih false
                { reader := (m.reader.appendResult c).advanceChar, lx := { m.lx with status := .continueWith k } }
                m' h' (le_trans hmb (Nat.le_succ _))
            · have hch' : (m.setStatus (.continueWith k)).reader.character =
                  some Sym.endOfGroup := hch
              rw [hch'] at h
              have h' : RunRes.panicked ("Missing rules for state " ++
                  groupName (m.setStatus (StageStatus.continueWith k)).lx.currentState ++ ".") =
                  RunRes.ok m' := h
              exact absurd h' (by simp)
            · have hch' : (m.setStatus (.continueWith k)).reader.character =
                  some Sym.otherErr := hch
              rw [hch'] at h
              have h' : RunRes.panicked "Unexpected error!" = RunRes.ok m' := h
              exact absurd h' (by simp)
      · have hm1 : m1 = (fireRule g r m).1 := congrArg Prod.fst heqf
        have hstv : st = .exitSuccess := by
          have h2 := congrArg Prod.snd heqf
          rw [fireRule_status] at h2
          exact h2
        rw [hm1, hstv] at h
        by_cases hov : (f && (fireRule g r m).1.reader.isFinished) = true
        · rw [if_pos hov] at h
          have h' : runCurrentStateAux fuel
              (((fireRule g r m).1.setStatus .exitFinished).reader.character.isNone)
              ((fireRule g r m).1.setStatus .exitFinished) = .ok m' := h
          have hrec := ih _ ((fireRule g r m).1.setStatus .exitFinished) m' h'
            (le_refl m.reader.pos)
          exact ⟨le_trans hmb hrec.1, hrec.2⟩
        · rw [if_neg hov] at h
          have h' : runCurrentStateAux fuel
              (((fireRule g r m).1.setStatus .exitSuccess).reader.character.isNone)
              ((fireRule g r m).1.setStatus .exitSuccess) = .ok m' := h
          have hrec := ih _ ((fireRule g r m).1.setStatus .exitSuccess) m' h'
            (le_refl m.reader.pos)
          exact ⟨le_trans hmb hrec.1, hrec.2⟩

theorem scanEndOfGroup (fuel : Nat) (M : Machine)
    (hcs : M.lx.currentState = 0)
    (hst : M.lx.status = .initial)
    (hch : M.reader.character = some Sym.endOfGroup) :
    runCurrentStateAux (fuel + 2) false M = .panicked "Missing rules for state ROOT." := by
  have hstep : step 0 M = .ok (M, .continueWith 1) := by
    rw [step.eq_def, hcs]
    show runSubState state_0_to_0 M = _
    rw [runSubState.eq_def, hch]
    rfl
  rw [show fuel + 2 = Nat.succ (fuel + 1) from rfl, runCurrentStateAux.eq_2, hst]
  rw [show StageStatus.initial.continueAs = some 0 from rfl]
  simp only [hstep, Bool.false_and, if_neg (show ¬(false = true) by simp)]
  have hch2 : (M.setStatus (.continueWith 1)).reader.character = some Sym.endOfGroup := hch
  rw [hch2]
  have hcs2 : (M.setStatus (.continueWith 1)).lx.currentState = 0 := hcs
  rw [hcs2]
  rfl

theorem runCurrentStateEOG (M : Machine) (hcs : M.lx.currentState = 0)
    (hch : M.reader.character = some Sym.endOfGroup) :
    runCurrentState M = .panicked "Missing rules for state ROOT." := by
  rw [runCurrentState]
  rw [show M.reader.input.length + 4 = M.reader.input.length + 2 + 2 from rfl]
  exact scanEndOfGroup (M.reader.input.length + 2) (M.setStatus .initial) hcs rfl hch

-- =========================
-- === Claim theorems ======
-- =========================

/-- C1 (counterexample): on a reader input whose first symbol is the
`EndOfGroup` decoding error, `TestLexer::run` does not return a structured
error value: it panics (`panic!`) with the "Missing rules for state" message,
aborting the process. -/
theorem c1_run_panics_on_end_of_group :
    run initLexer [Sym.endOfGroup] = .panicked "Missing rules for state ROOT." := rfl

/-- C1 (amended): whenever the dispatch of a run starting in the root group
meets the `EndOfGroup` condition on its first symbol, the run panics with the
"Missing rules for state" message — a process abort — instead of surfacing a
structured error value to the caller. -/
theorem c1_end_of_group_panic (lx : LexerState) (rest : List Sym)
    (h : lx.currentState = 0) :
    run lx (Sym.endOfGroup :: rest) = .panicked "Missing rules for state ROOT." := by
  have hscan := runCurrentStateEOG (startMachine (set_up lx) (Sym.endOfGroup :: rest)) h rfl
  have hloop : runLoop ((Sym.endOfGroup :: rest).length + 2)
      (startMachine (set_up lx) (Sym.endOfGroup :: rest)) =
      .panicked "Missing rules for state ROOT." := by
    rw [show (Sym.endOfGroup :: rest).length + 2 = Nat.succ (rest.length + 2) from
      by simp only [List.length_cons]; try omega]
    rw [runLoop.eq_2]
    simp only [hscan]
  rw [run.eq_def]
  simp only [hloop]

/-- C1 (witness for the amended theorem). -/
theorem c1_end_of_group_panic_witness :
    run initLexer [Sym.endOfGroup] = .panicked "Missing rules for state ROOT." :=
  c1_end_of_group_panic initLexer [] rfl

/-- C2 (counterexample): on a reader input carrying an undecodable symbol
(the reader's non-EOF, non-EndOfGroup error), `TestLexer::run` does not
return any of the three outcome kinds: it panics with "Unexpected error!". -/
theorem c2_run_panics_on_reader_error :
    run initLexer [Sym.otherErr] = .panicked "Unexpected error!" := rfl

/-- C2 (amended): for every entry lexer state with a well-formed group stack
and every reader input consisting solely of successfully decoded characters,
`TestLexer::run` terminates and returns one of the tri-state outcomes — in
this generated lexer always `Success` — carrying the tokens accumulated
during the run. -/
theorem c2_run_total_on_char_input (lx : LexerState) (input : List Sym)
    (hstack : StackOK lx) (hco : charOnly input) :
    ∃ toks lxF, run lx input =
      .ok ({ kind := .success, tokens := toks }, lxF) := by
  obtain ⟨mF, hloop, hfin, _, _⟩ := runLoop_ok (input.length + 2)
    (startMachine (set_up lx) input) hco hstack
    (by simp [startMachine, Reader.advanceChar])
    (by simp only [startMachine, Reader.advanceChar]; omega)
    (by simp only [startMachine, Reader.advanceChar]; omega)
  rw [run.eq_def]
  simp only [hloop, hfin]
  exact ⟨mF.lx.output, _, rfl⟩

/-- C2 (witness for the amended theorem). -/
theorem c2_run_total_on_char_input_witness :
    ∃ toks lxF, run initLexer [Sym.ch 'a', Sym.ch 'b'] =
      .ok ({ kind := .success, tokens := toks }, lxF) :=
  c2_run_total_on_char_input initLexer [Sym.ch 'a', Sym.ch 'b']
    ⟨by simp [initLexer], by intro g hg; simp [initLexer, initialState] at hg; omega⟩
    (by intro s hs; simp at hs; rcases hs with rfl | rfl <;> exact ⟨_, rfl⟩)

/-- C4: running the test lexer on `"a b"` yields exactly
`[Word "a", Word "b"]` — the separating space is part of neither token. -/
theorem c4_run_a_space_b :
    ∃ lxF, run initLexer [Sym.ch 'a', Sym.ch ' ', Sym.ch 'b'] =
      .ok ({ kind := .success,
             tokens := [Token.word ['a'], Token.word ['b']] }, lxF) :=
  ⟨_, rfl⟩

/-- C5: running the test lexer on `"ba"` yields exactly
`[Word "b", Unrecognized "a"]`: with no leading space, the second word is
caught by the catch-all rule of the seen-first-word group. -/
theorem c5_run_ba :
    ∃ lxF, run initLexer [Sym.ch 'b', Sym.ch 'a'] =
      .ok ({ kind := .success,
             tokens := [Token.word ['b'], Token.unrecognized ['a']] }, lxF) :=
  ⟨_, rfl⟩

/-- C6: running the test lexer on the empty input terminates with a
`Success` outcome carrying an empty token sequence. -/
theorem c6_run_empty :
    ∃ lxF, run initLexer ([] : List Sym) =
      .ok ({ kind := .success, tokens := [] }, lxF) :=
  ⟨_, rfl⟩

theorem scanFirstWord (lx : LexerState) (rest : List Sym)
    (h : lx.currentState = 0) (hne : charU64 rest.head? ≠ 97) :
    ∃ m', runCurrentState (startMachine lx (Sym.ch 'a' :: rest)) = .ok m' ∧
      m'.lx.output = lx.output ++ [Token.word ['a']] := by
  set M0 := (startMachine lx (Sym.ch 'a' :: rest)).setStatus StageStatus.initial with hM0
  have hstep1 : step 0 M0 = .ok (M0, .continueWith 2) := by
    rw [step.eq_def, show M0.lx.currentState = 0 from h]
    show runSubState state_0_to_0 M0 = _
    rw [runSubState.eq_def, show M0.reader.character = some (Sym.ch 'a') from rfl]
    rfl
  rw [runCurrentState]
  rw [show (startMachine lx (Sym.ch 'a' :: rest)).reader.input.length + 4 =
    Nat.succ ((startMachine lx (Sym.ch 'a' :: rest)).reader.input.length + 3) from rfl]
  rw [runCurrentStateAux.eq_2]
  simp only [show M0.lx.status.continueAs = some 0 from rfl, hstep1, Bool.false_and,
    if_neg (show ¬(false = true) by simp),
    show (M0.setStatus (.continueWith 2)).reader.character = some (Sym.ch 'a') from rfl]
  set M1 : Machine :=
    { reader := ((M0.setStatus (.continueWith 2)).reader.appendResult 'a').advanceChar,
      lx := (M0.setStatus (.continueWith 2)).lx } with hM1
  have hch2 : M1.reader.character = rest.head? := by
    cases rest <;> rfl
  have hstep2 : step 2 M1 = .ok ((fireRule 0 0 M1).1, .exitSuccess) := by
    rw [step.eq_def, show M1.lx.currentState = 0 from h]
    show runSubState state_0_to_2 M1 = _
    rw [runSubState.eq_def, hch2]
    by_cases hle : charU64 rest.head? ≤ 96
    · simp only [firstMatch, state_0_to_2]
      rw [if_pos ⟨Nat.zero_le _, hle⟩]
      rfl
    · have hge : 98 ≤ charU64 rest.head? := by omega
      have hmax : charU64 rest.head? ≤ u64MAX := charU64_le _
      simp only [firstMatch, state_0_to_2]
      rw [if_neg (by omega), if_neg (by omega), if_pos ⟨Nat.zero_le _, hmax⟩]
      rfl
  rw [show (startMachine lx (Sym.ch 'a' :: rest)).reader.input.length + 3 =
    Nat.succ ((startMachine lx (Sym.ch 'a' :: rest)).reader.input.length + 2) from rfl]
  rw [runCurrentStateAux.eq_2]
  simp only [show M1.lx.status.continueAs = some 2 from rfl, hstep2,
    Option.isNone_some, Bool.false_and, if_neg (show ¬(false = true) by simp)]
  rw [if_neg (show ¬(StageStatus.exitSuccess.shouldContinue = true) by decide)]
  rw [aux_stop ((startMachine lx (Sym.ch 'a' :: rest)).reader.input.length + 2) _
    ((fireRule 0 0 M1).1.setStatus .exitSuccess) rfl (by omega)]
  refine ⟨(fireRule 0 0 M1).1.setStatus .exitSuccess, rfl, ?_⟩
  rfl

theorem scanFirstWordB (lx : LexerState) (rest : List Sym)
    (h : lx.currentState = 0) (hne : charU64 rest.head? ≠ 98) :
    ∃ m', runCurrentState (startMachine lx (Sym.ch 'b' :: rest)) = .ok m' ∧
      m'.lx.output = lx.output ++ [Token.word ['b']] := by
  set M0 := (startMachine lx (Sym.ch 'b' :: rest)).setStatus StageStatus.initial with hM0
  have hstep1 : step 0 M0 = .ok (M0, .continueWith 3) := by
    rw [step.eq_def, show M0.lx.currentState = 0 from h]
    show runSubState state_0_to_0 M0 = _
    rw [runSubState.eq_def, show M0.reader.character = some (Sym.ch 'b') from rfl]
    rfl
  rw [runCurrentState]
  rw [show (startMachine lx (Sym.ch 'b' :: rest)).reader.input.length + 4 =
    Nat.succ ((startMachine lx (Sym.ch 'b' :: rest)).reader.input.length + 3) from rfl]
  rw [runCurrentStateAux.eq_2]
  simp only [show M0.lx.status.continueAs = some 0 from rfl, hstep1, Bool.false_and,
    if_neg (show ¬(false = true) by simp),
    show (M0.setStatus (.continueWith 3)).reader.character = some (Sym.ch 'b') from rfl]
  set M1 : Machine :=
    { reader := ((M0.setStatus (.continueWith 3)).reader.appendResult 'b').advanceChar,
      lx := (M0.setStatus (.continueWith 3)).lx } with hM1
  have hch2 : M1.reader.character = rest.head? := by
    cases rest <;> rfl
  have hstep2 : step 3 M1 = .ok ((fireRule 0 1 M1).1, .exitSuccess) := by
    rw [step.eq_def, show M1.lx.currentState = 0 from h]
    show runSubState state_0_to_3 M1 = _
    rw [runSubState.eq_def, hch2]
    by_cases hle : charU64 rest.head? ≤ 97
    · simp only [firstMatch, state_0_to_3]
      rw [if_pos ⟨Nat.zero_le _, hle⟩]
      rfl
    · have hge : 99 ≤ charU64 rest.head? := by omega
      have hmax : charU64 rest.head? ≤ u64MAX := charU64_le _
      simp only [firstMatch, state_0_to_3]
      rw [if_neg (by omega), if_neg (by omega), if_pos ⟨Nat.zero_le _, hmax⟩]
      rfl
  rw [show (startMachine lx (Sym.ch 'b' :: rest)).reader.input.length + 3 =
    Nat.succ ((startMachine lx (Sym.ch 'b' :: rest)).reader.input.length + 2) from rfl]
  rw [runCurrentStateAux.eq_2]
  simp only [show M1.lx.status.continueAs = some 3 from rfl, hstep2,
    Option.isNone_some, Bool.false_and, if_neg (show ¬(false = true) by simp)]
  rw [if_neg (show ¬(StageStatus.exitSuccess.shouldContinue = true) by decide)]
  rw [aux_stop ((startMachine lx (Sym.ch 'b' :: rest)).reader.input.length + 2) _
    ((fireRule 0 1 M1).1.setStatus .exitSuccess) rfl (by omega)]
  refine ⟨(fireRule 0 1 M1).1.setStatus .exitSuccess, rfl, ?_⟩
  rfl

/-- C3: longest-match ties are broken by rule declaration order.  In the
generated root group, when the first input symbol is an `'a'` (or `'b'`) and
the next symbol cannot extend the word — so the word rule and the
later-declared catch-all rule both match exactly one symbol — the scan fires
the word rule declared earlier in the group and emits a `Word` token, not
the catch-all's `Unrecognized` token. -/
theorem c3_earlier_rule_wins (lx : LexerState) (rest : List Sym)
    (h : lx.currentState = 0) :
    (charU64 rest.head? ≠ 97 →
      ∃ m', runCurrentState (startMachine lx (Sym.ch 'a' :: rest)) = .ok m' ∧
        m'.lx.output = lx.output ++ [Token.word ['a']]) ∧
    (charU64 rest.head? ≠ 98 →
      ∃ m', runCurrentState (startMachine lx (Sym.ch 'b' :: rest)) = .ok m' ∧
        m'.lx.output = lx.output ++ [Token.word ['b']]) :=
  ⟨fun hne => scanFirstWord lx rest h hne, fun hne => scanFirstWordB lx rest h hne⟩

/-- C3 (witness): at the concrete entry state and the one-symbol inputs
`"a"` and `"b"`. -/
theorem c3_earlier_rule_wins_witness :
    (∃ m', runCurrentState (startMachine initLexer [Sym.ch 'a']) = .ok m' ∧
      m'.lx.output = initLexer.output ++ [Token.word ['a']]) ∧
    (∃ m', runCurrentState (startMachine initLexer [Sym.ch 'b']) = .ok m' ∧
      m'.lx.output = initLexer.output ++ [Token.word ['b']]) :=
  ⟨(c3_earlier_rule_wins initLexer [] rfl).1 (by decide),
   (c3_earlier_rule_wins initLexer [] rfl).2 (by decide)⟩

/-- C7: every accepting transition of the generated dispatch has the same
shape, in source order: the substring accumulated in the reader's match
buffer is captured into `current_match` (and the buffer emptied), the rule's
action — one of the fixed table of action callbacks — is invoked on that
captured state, the "matched" bookmark is then updated to the current reader
position, and the step reports `ExitSuccess`. -/
theorem c7_accepting_transition_shape (next : Nat) (m m' : Machine)
    (h : step next m = .ok (m', .exitSuccess)) :
    ∃ act ∈ ruleActionsList,
      m' = { reader := { m.reader with result := [] },
             lx := { (act { m.lx with currentMatch := m.reader.result }) with
                       matchedBookmark := m.reader.pos } } := by
  rcases step_spec next m m' .exitSuccess h with ⟨_, k, hk, _, _⟩ |
    ⟨g, r, hg, hr, heq⟩
  · exact absurd hk (by simp)
  · have hm' : m' = (fireRule g r m).1 := congrArg Prod.fst heq
    refine ⟨ruleAction g r, ?_, ?_⟩
    · interval_cases g <;> interval_cases r <;> simp [ruleAction, ruleActionsList]
    · rw [hm']
      rfl

/-- C7 (witness): the EOF accepting transition of root sub-state 4. -/
theorem c7_accepting_transition_shape_witness :
    ∃ act ∈ ruleActionsList,
      (fireRule 0 2 { reader := { input := [], pos := 1, result := [] },
                      lx := initLexer }).1 =
        { reader := { input := [], pos := 1, result := [] },
          lx := { (act { initLexer with currentMatch := ([] : List Char) }) with
                    matchedBookmark := 1 } } :=
  c7_accepting_transition_shape 4
    { reader := { input := [], pos := 1, result := [] }, lx := initLexer }
    (fireRule 0 2 { reader := { input := [], pos := 1, result := [] },
                    lx := initLexer }).1 rfl

/-- C8: every sub-state dispatch table of the generated automaton is total:
for each of the fifteen tables and every symbol value up to and including
the EOF pseudo-symbol, the first-match interval lookup yields exactly one
outcome — no symbol has an undefined transition. -/
theorem c8_dispatch_total (L : List (Nat × Nat × TransArm)) (v : Nat)
    (hL : L ∈ allSubStates) (hv : v ≤ u64MAX) :
    ∃ a, firstMatch L v = some a := by
  have hca : hasCatchAll L = true := by
    fin_cases hL <;> decide
  have htot := firstMatch_total L v hv (hasCatchAll_exists L hca)
  rcases hfm : firstMatch L v with _ | a
  · rw [hfm] at htot
    simp at htot
  · exact ⟨a, rfl⟩

/-- C8 (witness): the root start sub-state on the symbol value 97. -/
theorem c8_dispatch_total_witness : ∃ a, firstMatch state_0_to_0 97 = some a :=
  c8_dispatch_total state_0_to_0 97 (by simp [allSubStates]) (by decide)

/-- C9: within one token-scan (`run_current_state` call), the position
stored in the "matched" bookmark never decreases: if the bookmark does not
exceed the reader position on entry, then the bookmark on exit is at least
the bookmark on entry (each update sets it to the current, never-decreasing
reader position) and again does not exceed the reader position. -/
theorem c9_matched_bookmark_monotone (m m' : Machine)
    (hmb : m.lx.matchedBookmark ≤ m.reader.pos)
    (h : runCurrentState m = .ok m') :
    m.lx.matchedBookmark ≤ m'.lx.matchedBookmark ∧
      m'.lx.matchedBookmark ≤ m'.reader.pos := by
  rw [runCurrentState] at h
  exact aux_bookmark (m.reader.input.length + 4) false (m.setStatus .initial) m' h hmb

/-- C9 (witness): one scan over the empty input from the fresh lexer. -/
theorem c9_matched_bookmark_monotone_witness :
    ({ reader := { input := [], pos := 1, result := [] },
       lx := initLexer } : Machine).lx.matchedBookmark ≤
      ({ reader := { input := [], pos := 2, result := [] },
         lx := { stateStack := [0], currentMatch := [], output := [],
                 status := .exitFinished, matchedBookmark := 2 } } : Machine).lx.matchedBookmark ∧
    ({ reader := { input := [], pos := 2, result := [] },
       lx := { stateStack := [0], currentMatch := [], output := [],
               status := .exitFinished, matchedBookmark := 2 } } : Machine).lx.matchedBookmark ≤
      ({ reader := { input := [], pos := 2, result := [] },
         lx := { stateStack := [0], currentMatch := [], output := [],
                 status := .exitFinished, matchedBookmark := 2 } } : Machine).reader.pos :=
  c9_matched_bookmark_monotone
    { reader := { input := [], pos := 1, result := [] }, lx := initLexer }
    { reader := { input := [], pos := 2, result := [] },
      lx := { stateStack := [0], currentMatch := [], output := [],
              status := .exitFinished, matchedBookmark := 2 } }
    (by decide) rfl

/-- C10: every `TestLexer::run` call moves the accumulated output into the
returned result (`mem::take`): whatever the outcome kind, the returned
tokens are exactly the output the run loop accumulated, and the lexer state
handed back has an empty output buffer, so a subsequent run starts from an
empty output sequence. -/
theorem c10_run_takes_output (lx : LexerState) (input : List Sym)
    (r : LexingResult) (lxF : LexerState)
    (h : run lx input = .ok (r, lxF)) :
    lxF.output = [] ∧
      ∃ mF, runLoop (input.length + 2) (startMachine (set_up lx) input) = .ok mF ∧
        r.tokens = mF.lx.output := by
  rw [run.eq_def] at h
  rcases hloop : runLoop (input.length + 2) (startMachine (set_up lx) input) with
    mF | e | e
  rotate_left
  · simp only [hloop] at h
    exact absurd h (by simp)
  · simp only [hloop] at h
    exact absurd h (by simp)
  · simp only [hloop] at h
    cases hst : mF.lx.status <;> simp only [hst] at h <;>
      · simp only [RunRes.ok.injEq, Prod.mk.injEq] at h
        obtain ⟨hr, hlxF⟩ := h
        refine ⟨?_, mF, rfl, ?_⟩
        · rw [← hlxF]
          rfl
        · rw [← hr]

/-- C10 (witness): the run over the empty input from the fresh lexer. -/
theorem c10_run_takes_output_witness :
    ({ stateStack := [0], currentMatch := [], output := [],
       status := StageStatus.exitFinished, matchedBookmark := 2 } :
        LexerState).output = [] ∧
      ∃ mF, runLoop (([] : List Sym).length + 2)
          (startMachine (set_up initLexer) []) = .ok mF ∧
        ({ kind := ResultKind.success, tokens := [] } : LexingResult).tokens =
          mF.lx.output :=
  c10_run_takes_output initLexer [] { kind := .success, tokens := [] }
    { stateStack := [0], currentMatch := [], output := [],
      status := StageStatus.exitFinished, matchedBookmark := 2 } rfl

end Flexer
